import Mathlib

/-! Verification development for `tracking.service.go` (package `tracking51`).

The file embeds the tracking client of the repository: the request and
response types, `CreateTrackingRequest.Validate`, `trackingService.Create`,
`TracksQueryParams.Validate` and `trackingService.All`.

Library code the source calls is modelled as follows.

* `regexp` (Go standard library): a parser and a matcher for the fragment of
  the RE2 syntax that the pattern of the source is written in.
* `ozzo-validation`: `Required`, `When`, `Match`, `Date`, the string rule
  `is.EmailFormat`, `Validate` and `ValidateStruct`, for string fields.
* `govalidator.IsEmail` and `time.Parse`: members of the record `Lib`; every
  theorem holds for all of their behaviours.
* the HTTP executor, `json.Unmarshal` and the helper `toValues`: members of
  the record `Service`.

Go strings are modelled by `String`, the type `int` by `Int`, slices by `List`.
-/

namespace Tracking51

/-! ## The Go `regexp` package, restricted to the fragment the source uses -/

namespace Regexp

/-- Abstract syntax of a parsed pattern, after `regexp/syntax`: `OpEmptyMatch`,
`OpLiteral`, the Perl class `\d`, `OpBeginText`, `OpEndText`, `OpStar`,
`OpPlus`, `OpQuest`, `OpRepeat` with equal bounds, and `OpConcat`. -/
inductive Re where
  | emptyMatch : Re
  | literal : Char → Re
  | digitClass : Re
  | beginText : Re
  | endText : Re
  | star : Re → Re
  | plus : Re → Re
  | quest : Re → Re
  | repeatN : Nat → Re → Re
  | concat : Re → Re → Re
  deriving DecidableEq, Repr, Inhabited

/-- The class `\d` of Go: the ASCII digits `0` to `9` only. -/
def isDigit (c : Char) : Bool := decide ('0'.toNat ≤ c.toNat) && decide (c.toNat ≤ '9'.toNat)

/-- ASCII letters and digits (`isalnum` of `regexp/syntax`). -/
def isAlnum (c : Char) : Bool :=
  isDigit c
    || (decide ('A'.toNat ≤ c.toNat) && decide (c.toNat ≤ 'Z'.toNat))
    || (decide ('a'.toNat ≤ c.toNat) && decide (c.toNat ≤ 'z'.toNat))

/-- An escaped character that stands for itself: ASCII and not alphanumeric. -/
def isEscapablePunct (c : Char) : Bool := decide (c.toNat < 128) && !isAlnum c

/-- Metacharacters whose parsing is outside the modelled fragment. -/
def isUnsupportedMeta (c : Char) : Bool :=
  c == '.' || c == '[' || c == '(' || c == ')' || c == '|'

/-- Reads the decimal digits at the head of the input. -/
def takeDigits : List Char → List Char × List Char
  | [] => ([], [])
  | c :: t =>
    if isDigit c then ((takeDigits t).1.cons c, (takeDigits t).2) else ([], c :: t)

/-- Value of a string of decimal digits. -/
def digitsValue (ds : List Char) : Nat :=
  ds.foldl (fun acc c => 10 * acc + (c.toNat - '0'.toNat)) 0

/-- The repetition `{n}` that follows an opening brace: the count and the rest
of the pattern after the closing brace. Leading zeros are refused, as is a
count above 1000 (the limit of `regexp/syntax`). Other forms of the braces
are outside the fragment. -/
def parseRepeatCount (t : List Char) : Option (Nat × List Char) :=
  match takeDigits t with
  | ([], _) => none
  | (d :: ds, '}' :: rest) =>
    if d == '0' && !ds.isEmpty then none
    else if digitsValue (d :: ds) ≤ 1000 then some (digitsValue (d :: ds), rest)
    else none
  | _ => none

/-- Drops the non-greedy marker `?` that may follow a repetition operator. -/
def dropLazyMark : List Char → List Char
  | '?' :: t => t
  | t => t

/-- The method `repeat` of the parser: the operator applies to the item on top
of the stack. It is an error when the stack is empty (missing argument) and
when the item before was itself a repetition (`lastRepeat`, Perl mode). -/
def applyRepeat (op : Re → Re) (stack : List Re) (lastRepeat : Bool) : Option (List Re) :=
  if lastRepeat then none
  else
    match stack with
    | [] => none
    | sub :: below => some (op sub :: below)

/-- The main loop of `syntax.Parse` under the flags `syntax.Perl` (which has
`OneLine` set, so `^` is `OpBeginText` and `$` is `OpEndText`). The stack has
its top at the head. `none` is a parse error or a pattern outside the
fragment. Each step consumes a character, so a fuel of the length of the
pattern plus one is enough. -/
def parseLoop : Nat → List Char → List Re → Bool → Option (List Re)
  | 0, _, _, _ => none
  | _ + 1, [], stack, _ => some stack
  | fuel + 1, c :: t, stack, lastRepeat =>
    if c == '^' then parseLoop fuel t (Re.beginText :: stack) false
    else if c == '$' then parseLoop fuel t (Re.endText :: stack) false
    else if c == '*' then
      (applyRepeat Re.star stack lastRepeat).bind
        (fun st => parseLoop fuel (dropLazyMark t) st true)
    else if c == '+' then
      (applyRepeat Re.plus stack lastRepeat).bind
        (fun st => parseLoop fuel (dropLazyMark t) st true)
    else if c == '?' then
      (applyRepeat Re.quest stack lastRepeat).bind
        (fun st => parseLoop fuel (dropLazyMark t) st true)
    else if c == '{' then
      match parseRepeatCount t with
      | none => none
      | some (n, rest) =>
        (applyRepeat (Re.repeatN n) stack lastRepeat).bind
          (fun st => parseLoop fuel (dropLazyMark rest) st true)
    else if c == '\\' then
      match t with
      | [] => none
      | e :: rest =>
        if e == 'd' then parseLoop fuel rest (Re.digitClass :: stack) false
        else if isEscapablePunct e then parseLoop fuel rest (Re.literal e :: stack) false
        else none
    else if isUnsupportedMeta c then none
    else parseLoop fuel t (Re.literal c :: stack) false

/-- Collapses the stack (top first) into the concatenation of its items in
the order they were pushed. -/
def concatStack : List Re → Re
  | [] => Re.emptyMatch
  | [r] => r
  | r :: below => Re.concat (concatStack below) r

/-- The function `regexp.Compile`: the parsed pattern, or `none` on an error. -/
def Compile (pattern : String) : Option Re :=
  (parseLoop (pattern.length + 1) pattern.toList [] false).map concatStack

/-- A position of the matcher: the number of characters before it and the
characters from it on. -/
abbrev Pos := Nat × List Char

/-- The positions reached from the given ones by `n` successive matches. -/
def iterate (step : Pos → List Pos) : Nat → List Pos → List Pos
  | 0, ps => ps
  | n + 1, ps => iterate step n (ps.flatMap step)

/-- The positions reached from the given ones by at most `fuel` successive
matches. -/
def closure (step : Pos → List Pos) : Nat → List Pos → List Pos
  | 0, ps => ps
  | fuel + 1, ps => ps ++ closure step fuel (ps.flatMap step)

/-- All positions at which a match of the expression that starts at the given
position can end. `^` matches at the beginning of the text only and `$` at
its end only (no multi-line flag). A starred expression is iterated at most
once more than there are characters left, which reaches every position that
any number of iterations reaches. -/
def ends : Re → Pos → List Pos
  | Re.emptyMatch, p => [p]
  | Re.literal c, p =>
    match p.2 with
    | [] => []
    | x :: xs => if x = c then [(p.1 + 1, xs)] else []
  | Re.digitClass, p =>
    match p.2 with
    | [] => []
    | x :: xs => if isDigit x then [(p.1 + 1, xs)] else []
  | Re.beginText, p => if p.1 = 0 then [p] else []
  | Re.endText, p => if p.2.isEmpty then [p] else []
  | Re.star r, p => closure (ends r) (p.2.length + 1) [p]
  | Re.plus r, p => closure (ends r) (p.2.length + 1) (ends r p)
  | Re.quest r, p => p :: ends r p
  | Re.repeatN n r, p => iterate (ends r) n [p]
  | Re.concat a b, p => (ends a p).flatMap (ends b)

/-- The suffixes of a text with the number of characters before each. -/
def starts : Nat → List Char → List Pos
  | i, [] => [(i, [])]
  | i, c :: t => (i, c :: t) :: starts (i + 1) t

/-- The method `MatchString`: whether the text contains a match, starting at
any position. -/
def MatchString (re : Re) (s : String) : Bool :=
  (starts 0 s.toList).any (fun p => !(ends re p).isEmpty)

/-- The expression that the pattern of the source compiles to: one or more
`^`, two digits, eleven digits, `$`. -/
def phoneRe : Re :=
  Re.concat
    (Re.concat (Re.concat (Re.plus Re.beginText) (Re.repeatN 2 Re.digitClass))
      (Re.repeatN 11 Re.digitClass))
    Re.endText

/-- The expression that the pattern of the specification compiles to, in which
the `+` is escaped: `^`, a literal `+`, two digits, eleven digits, `$`. It is
here for comparison with the pattern of the source. -/
def escapedPhoneRe : Re :=
  Re.concat
    (Re.concat
      (Re.concat (Re.concat Re.beginText (Re.literal '+')) (Re.repeatN 2 Re.digitClass))
      (Re.repeatN 11 Re.digitClass))
    Re.endText

end Regexp

/-! ## The validation library (`ozzo-validation`), for string fields -/

/-- The error object of the validation library: a code and a message. -/
structure ErrorObject where
  code : String
  message : String
  deriving DecidableEq, Repr, Inhabited

/-- The method `SetMessage`: the same error with another message. -/
def ErrorObject.SetMessage (e : ErrorObject) (message : String) : ErrorObject :=
  { e with message := message }

def ErrRequired : ErrorObject := ⟨"validation_required", "cannot be blank"⟩
def ErrMatchInvalid : ErrorObject := ⟨"validation_match_invalid", "must be in a valid format"⟩
def ErrDateInvalid : ErrorObject := ⟨"validation_date_invalid", "must be a valid date"⟩
def ErrEmail : ErrorObject := ⟨"validation_is_email", "must be a valid email address"⟩

/-- The type `validation.Errors`, a map from field names to errors, kept as
an association list with one entry for a key. -/
abbrev Errors := List (String × ErrorObject)

/-- The assignment `errs[name] = err` of a map. -/
def Errors.set (errs : Errors) (name : String) (err : ErrorObject) : Errors :=
  errs.filter (fun kv => kv.1 != name) ++ [(name, err)]

/-- The lookup `errs[name]` of a map. -/
def Errors.get (errs : Errors) (name : String) : Option ErrorObject :=
  (errs.find? (fun kv => kv.1 == name)).map (fun kv => kv.2)

/-- The interface `validation.Rule` on a string value: `none` is the nil
error. -/
abbrev Rule := String → Option ErrorObject

/-- The function `validation.Validate` on a string value: the error of the
first rule that fails. A string has no `Validate` method of its own and is no
container, so the value passes when every rule does. -/
def ValidateValue (value : String) : List Rule → Option ErrorObject
  | [] => none
  | rule :: rules =>
    match rule value with
    | some err => some err
    | none => ValidateValue value rules

/-- The rule `validation.Required` with its error. -/
structure RequiredRule where
  err : ErrorObject

def Required : RequiredRule := ⟨ErrRequired⟩

def RequiredRule.Error (r : RequiredRule) (message : String) : RequiredRule :=
  ⟨r.err.SetMessage message⟩

/-- A string is empty (`IsEmpty`) when its length is zero. -/
def RequiredRule.Validate (r : RequiredRule) : Rule :=
  fun value => if value = "" then some r.err else none

/-- The rule `validation.Match`. -/
structure MatchRule where
  re : Regexp.Re
  err : ErrorObject

def Match (re : Regexp.Re) : MatchRule := ⟨re, ErrMatchInvalid⟩

def MatchRule.Error (r : MatchRule) (message : String) : MatchRule :=
  { r with err := r.err.SetMessage message }

/-- An empty string passes; another string passes when the expression
matches it. -/
def MatchRule.Validate (r : MatchRule) : Rule :=
  fun value => if value = "" ∨ Regexp.MatchString r.re value = true then none else some r.err

/-- Library functions that the validation rules call and that are not
modelled: `isEmail s` is the result of `govalidator.IsEmail(s)`, and
`timeParse layout s` tells whether `time.Parse(layout, s)` returns without
an error. -/
structure Lib where
  isEmail : String → Bool
  timeParse : String → String → Bool

/-- The rule `validation.Date`, built with no bounds on the date. -/
structure DateRule where
  layout : String
  err : ErrorObject

def Date (layout : String) : DateRule := ⟨layout, ErrDateInvalid⟩

def DateRule.Error (r : DateRule) (message : String) : DateRule :=
  { r with err := r.err.SetMessage message }

/-- An empty string passes; another string passes when it parses under the
layout. -/
def DateRule.Validate (lib : Lib) (r : DateRule) : Rule :=
  fun value =>
    if value = "" then none
    else if lib.timeParse r.layout value = true then none
    else some r.err

/-- The type `validation.StringRule`: a predicate on strings and an error. -/
structure StringRule where
  validate : String → Bool
  err : ErrorObject

def StringRule.Error (r : StringRule) (message : String) : StringRule :=
  { r with err := r.err.SetMessage message }

/-- An empty string passes; another string passes when the predicate holds. -/
def StringRule.Validate (r : StringRule) : Rule :=
  fun value => if value = "" then none else if r.validate value = true then none else some r.err

/-- The rule `is.EmailFormat`. -/
def EmailFormat (lib : Lib) : StringRule := ⟨lib.isEmail, ErrEmail⟩

/-- The rule `validation.When` without an else branch: the rules apply when
the condition holds, and the value passes otherwise. -/
def When (condition : Bool) (rules : List Rule) : Rule :=
  fun value => if condition = true then ValidateValue value rules else none

/-- The result of `validation.Field`, resolved against the struct: the name
under which an error is reported (the name in the field's `json` tag), the
value of the field and its rules. -/
structure FieldRules where
  name : String
  value : String
  rules : List Rule

def Field (name : String) (value : String) (rules : List Rule) : FieldRules :=
  ⟨name, value, rules⟩

/-- The loop of `validation.ValidateStruct`: the error of every field that
fails is stored under the name of the field. -/
def collectErrors : List FieldRules → Errors → Errors
  | [], errs => errs
  | fr :: rest, errs =>
    match ValidateValue fr.value fr.rules with
    | some err => collectErrors rest (errs.set fr.name err)
    | none => collectErrors rest errs

/-- The function `validation.ValidateStruct`: the collected errors when there
is one, and nil (`none`) otherwise. -/
def ValidateStruct (fields : List FieldRules) : Option Errors :=
  if (collectErrors fields []).isEmpty then none else some (collectErrors fields [])

/-! ## The data model of `tracking.service.go` -/

/-- The value of the interface `error` that the service returns, when it is not
nil: the errors of a failed validation, or the error that the HTTP executor or
the JSON decoder reported. -/
inductive Error where
  | validation : Errors → Error
  | external : String → Error
  deriving DecidableEq, Repr

/-- A call that either returns or panics. -/
inductive Run (α : Type) where
  | panicked : Run α
  | returned : α → Run α
  deriving DecidableEq, Repr

structure CreateTrackingRequest where
  TrackingNumber : String
  CourierCode : String
  OrderNumber : String
  Title : String
  DestinationCode : String
  LogisticsChannel : String
  Note : String
  CustomerName : String
  CustomerEmail : String
  CustomerPhone : String
  ShippingDate : String
  TrackingShippingDate : String
  TrackingPostalCode : String
  TrackingDestinationCode : String
  TrackingCourierAccount : String
  deriving DecidableEq, Repr, Inhabited

/-- The function `regexp.MustCompile`: it panics (`none`) when the pattern does
not compile. -/
def MustCompile (pattern : String) : Option Regexp.Re := Regexp.Compile pattern

/-- The pattern of the customer phone rule, as written in the source. -/
def customerPhonePattern : String := "^+\\d{2}\\d{11}$"

/-- The pattern of the specification (section 6), with the `+` escaped. The
source does not use it; it is here for comparison. -/
def specPhonePattern : String := "^\\+\\d{2}\\d{11}$"

/-- The field rules that `Validate` hands to `ValidateStruct`, in the order
of the source; `re` is the compiled pattern of the phone rule. -/
def CreateTrackingRequest.fieldRules (lib : Lib) (re : Regexp.Re) (m : CreateTrackingRequest) :
    List FieldRules :=
  [Field "tracking_number" m.TrackingNumber
     [(Required.Error "包裹物流单号不能为空").Validate],
   Field "courier_code" m.CourierCode
     [(Required.Error "物流商简码不能为空").Validate],
   Field "customer_email" m.CustomerEmail
     [When (m.CustomerEmail != "") [((EmailFormat lib).Error "客户邮箱地址格式错误").Validate]],
   Field "customer_phone" m.CustomerPhone
     [When (m.CustomerPhone != "") [((Match re).Error "客户手机号码格式错误").Validate]],
   Field "shipping_date" m.ShippingDate
     [When (m.ShippingDate != "")
       [((Date "2006-01-02 15:04").Error "包裹发货时间格式错误").Validate lib]],
   Field "tracking_shipping_date" m.TrackingShippingDate
     [When (m.TrackingShippingDate != "")
       [((Date "20060102").Error "包裹发货时间格式错误").Validate lib]]]

/-- The method `CreateTrackingRequest.Validate`. The arguments of
`ValidateStruct` are evaluated first, `MustCompile` among them. -/
def CreateTrackingRequest.Validate (lib : Lib) (m : CreateTrackingRequest) :
    Run (Option Errors) :=
  match MustCompile customerPhonePattern with
  | none => Run.panicked
  | some re => Run.returned (ValidateStruct (m.fieldRules lib re))

structure Result where
  TrackingNumber : String
  CourierCode : String
  OrderNumber : String
  deriving DecidableEq, Repr, Inhabited

structure CreateResult where
  Success : List Result
  Error : List Result
  deriving DecidableEq, Repr, Inhabited

structure TrackInfo where
  CheckpointDate : String
  TrackingDetail : String
  Location : String
  CheckpointDeliveryStatus : String
  CheckpointDeliverySubStatus : String
  deriving DecidableEq, Repr, Inhabited

structure TrackOriginInfo where
  DestinationTrackNumber : String
  ReferenceNumber : String
  ExchangeNumber : String
  ReceivedDate : String
  DispatchedDate : String
  DepartedAirportDate : String
  ArrivedAbroadDate : String
  CustomsReceivedDate : String
  ArrivedDestinationDate : String
  Weblink : String
  CourierPhone : String
  TrackInfo : List TrackInfo
  ServiceCode : String
  StatusInfo : String
  Weight : String
  DestinationInfo : String
  LatestEvent : String
  LastestCheckpointTime : String
  deriving DecidableEq, Repr, Inhabited

structure Track where
  TrackingNumber : String
  CourierCode : String
  LogisticsChannel : String
  Destination : String
  TrackUpdate : Bool
  Consignee : String
  Updating : Bool
  CreatedAt : String
  UpdateDate : String
  OrderCreateTime : String
  CustomerEmail : String
  CustomerPhone : String
  Title : String
  OrderNumber : String
  Note : String
  CustomerName : String
  Archived : Bool
  Original : String
  DestinationCountry : String
  TransitTime : Int
  StayTime : Int
  OriginInfo : TrackOriginInfo
  deriving DecidableEq, Repr, Inhabited

structure TracksQueryParams where
  TrackingNumbers : String
  OrderNumbers : String
  DeliveryStatus : String
  ArchivedStatus : String
  ItemsAmount : Int
  PagesAmount : Int
  CreatedDateMin : Int
  CreatedDateMax : Int
  ShippingDateMin : Int
  ShippingDateMax : Int
  UpdatedDateMin : Int
  UpdatedDateMax : Int
  Lang : String
  deriving DecidableEq, Repr, Inhabited

/-! ## The JSON encoding of a request, from its struct tags -/

/-- A struct field as `encoding/json` sees it: the key of its tag, whether
the tag has the option `omitempty`, and the value. -/
structure JSONField where
  key : String
  omitempty : Bool
  value : String
  deriving DecidableEq, Repr

/-- The fields of `CreateTrackingRequest` with their tags, in the order of
the declaration. -/
def CreateTrackingRequest.jsonFields (m : CreateTrackingRequest) : List JSONField :=
  [⟨"tracking_number", false, m.TrackingNumber⟩,
   ⟨"courier_code", false, m.CourierCode⟩,
   ⟨"order_number", true, m.OrderNumber⟩,
   ⟨"title", true, m.Title⟩,
   ⟨"destination_code", true, m.DestinationCode⟩,
   ⟨"logistics_channel", true, m.LogisticsChannel⟩,
   ⟨"note", true, m.Note⟩,
   ⟨"customer_name", true, m.CustomerName⟩,
   ⟨"customer_email", true, m.CustomerEmail⟩,
   ⟨"customer_phone", true, m.CustomerPhone⟩,
   ⟨"shipping_date", true, m.ShippingDate⟩,
   ⟨"tracking_shipping_date", true, m.TrackingShippingDate⟩,
   ⟨"tracking_postal_code", true, m.TrackingPostalCode⟩,
   ⟨"tracking_destination_code", true, m.TrackingDestinationCode⟩,
   ⟨"tracking_courier_account", true, m.TrackingCourierAccount⟩]

/-- The members of the JSON object that `json.Marshal` writes for a struct of
string fields, in order: a field with `omitempty` is left out when its value
is the empty string. -/
def Marshal (fields : List JSONField) : List (String × String) :=
  fields.filterMap (fun f => if f.omitempty && f.value == "" then none else some (f.key, f.value))

/-! ## The service -/

/-- The type `url.Values` that `toValues` returns. -/
abbrev Values := List (String × List String)

/-- A request handed to the HTTP executor: the method and the path of the
call (`Put`, `Get`), the members of the JSON object set as its body
(`SetBody`) and its query parameters (`SetQueryParamsFromValues`). -/
structure Request where
  method : String
  path : String
  body : Option (List (String × String))
  query : Values
  deriving DecidableEq, Repr

/-- The response of the executor; `body` is what `resp.Body()` returns. -/
structure Response where
  body : String
  deriving DecidableEq, Repr, Inhabited

/-- The anonymous struct that `Create` and `All` decode a response into: the
embedded `NormalResponse`, whose declaration is in another file of the
package and whose type is the parameter `N`, and the field `Data`. -/
structure Envelope (N : Type) (D : Type) where
  NormalResponse : N
  Data : D

/-- The type `trackingService` with what it depends on: the HTTP executor
`httpClient` (the result of a call is an error or a response), the function
`json.Unmarshal` at the two envelope types, the helper `toValues` of the
package, and the library functions of the validation rules. -/
structure Service (N : Type) where
  httpClient : Request → Except Error Response
  unmarshalCreate : String → Except Error (Envelope N CreateResult)
  unmarshalTracks : String → Except Error (Envelope N (List Track))
  toValues : TracksQueryParams → Values
  lib : Lib

/-- What a call of `Create` returns, with the requests it handed to the
executor. -/
structure CreateReturn where
  res : CreateResult
  err : Option Error
  calls : List Request
  deriving DecidableEq, Repr

/-- The zero value of `CreateResult`: both slices nil. -/
def CreateResult.zero : CreateResult := ⟨[], []⟩

/-- The request that `Create` builds. -/
def createCall (req : CreateTrackingRequest) : Request :=
  ⟨"PUT", "/create", some (Marshal req.jsonFields), []⟩

/-- The method `trackingService.Create`. -/
def Service.Create {N : Type} (s : Service N) (req : CreateTrackingRequest) : Run CreateReturn :=
  match req.Validate s.lib with
  | Run.panicked => Run.panicked
  | Run.returned (some errs) =>
    Run.returned ⟨CreateResult.zero, some (Error.validation errs), []⟩
  | Run.returned none =>
    match s.httpClient (createCall req) with
    | Except.error e => Run.returned ⟨CreateResult.zero, some e, [createCall req]⟩
    | Except.ok resp =>
      match s.unmarshalCreate resp.body with
      | Except.ok r => Run.returned ⟨r.Data, none, [createCall req]⟩
      | Except.error e => Run.returned ⟨CreateResult.zero, some e, [createCall req]⟩

/-- The method `TracksQueryParams.Validate`: always nil. -/
def TracksQueryParams.Validate (_m : TracksQueryParams) : Option Error := none

/-- What a call of `All` returns, with the requests it handed to the
executor. -/
structure AllReturn where
  items : List Track
  isLastPage : Bool
  err : Option Error
  calls : List Request
  deriving DecidableEq, Repr

/-- The request that `All` builds. -/
def allCall {N : Type} (s : Service N) (params : TracksQueryParams) : Request :=
  ⟨"GET", "/get", none, s.toValues params⟩

/-- The method `trackingService.All`. -/
def Service.All {N : Type} (s : Service N) (params : TracksQueryParams) : AllReturn :=
  match params.Validate with
  | some e => ⟨[], false, some e, []⟩
  | none =>
    match s.httpClient (allCall s params) with
    | Except.error e => ⟨[], false, some e, [allCall s params]⟩
    | Except.ok resp =>
      match s.unmarshalTracks resp.body with
      | Except.ok res =>
        ⟨res.Data, decide ((res.Data.length : Int) < params.ItemsAmount), none, [allCall s params]⟩
      | Except.error e => ⟨[], false, some e, [allCall s params]⟩

/-! ## Concrete instances for evaluating the model -/

/-- Splits a text at its first `@`. -/
def splitAt : List Char → Option (List Char × List Char)
  | [] => none
  | c :: t =>
    if c = '@' then some ([], t)
    else (splitAt t).map (fun p => (c :: p.1, p.2))

/-- A text has the shape of a layout when it has a digit wherever the layout
has one and the character of the layout elsewhere. -/
def hasShape : List Char → List Char → Bool
  | [], [] => true
  | l :: ls, c :: cs =>
    (if Regexp.isDigit l then Regexp.isDigit c else decide (l = c)) && hasShape ls cs
  | _, _ => false

/-- An instance of `Lib` for examples. It is coarser than the libraries: an
address passes with text on both sides of a single `@`, and a date passes
when it has the shape of the layout. -/
def exampleLib : Lib where
  isEmail := fun s =>
    match splitAt s.toList with
    | none => false
    | some (l, d) => !l.isEmpty && !d.isEmpty && !d.contains '@'
  timeParse := fun layout s => hasShape layout.toList s.toList

/-- An instance of `Service` for examples: the executor answers every request
with the given body, and the decoders return the given envelopes whatever the
body. -/
def exampleService (body : String) (created : CreateResult) (tracks : List Track) :
    Service Unit where
  httpClient := fun _ => Except.ok ⟨body⟩
  unmarshalCreate := fun _ => Except.ok ⟨(), created⟩
  unmarshalTracks := fun _ => Except.ok ⟨(), tracks⟩
  toValues := fun params =>
    [("tracking_numbers", [params.TrackingNumbers]), ("items_amount", [toString params.ItemsAmount])]
  lib := exampleLib

/-- A request with the two required fields and nothing else. -/
def minimalRequest (trackingNumber courierCode : String) : CreateTrackingRequest :=
  { TrackingNumber := trackingNumber, CourierCode := courierCode, OrderNumber := "",
    Title := "", DestinationCode := "", LogisticsChannel := "", Note := "",
    CustomerName := "", CustomerEmail := "", CustomerPhone := "", ShippingDate := "",
    TrackingShippingDate := "", TrackingPostalCode := "", TrackingDestinationCode := "",
    TrackingCourierAccount := "" }

/-! ## Facts about the matcher -/

namespace Regexp

theorem subset_closure (step : Pos → List Pos) (n : Nat) (ps : List Pos) :
    ∀ q ∈ ps, q ∈ closure step n ps := by
  cases n with
  | zero => intro q hq; simpa [closure] using hq
  | succ n => intro q hq; simp [closure, hq]

theorem closure_invariant (step : Pos → List Pos) (P : Pos → Prop)
    (hstep : ∀ a, P a → ∀ b ∈ step a, P b) :
    ∀ (n : Nat) (ps : List Pos), (∀ a ∈ ps, P a) → ∀ q ∈ closure step n ps, P q := by
  intro n
  induction n with
  | zero => intro ps hps q hq; exact hps q (by simpa [closure] using hq)
  | succ n ih =>
    intro ps hps q hq
    simp only [closure, List.mem_append] at hq
    rcases hq with hq | hq
    · exact hps q hq
    · refine ih (ps.flatMap step) ?_ q hq
      intro a ha
      rcases List.mem_flatMap.mp ha with ⟨b, hb, hab⟩
      exact hstep b (hps b hb) a hab

/-- The expression `^+` matches at the beginning of the text, and only there,
without consuming a character. -/
theorem mem_ends_plus_beginText (p q : Pos) :
    q ∈ ends (Re.plus Re.beginText) p ↔ p.1 = 0 ∧ q = p := by
  constructor
  · intro h
    have hstep : ∀ a, (a.1 = 0 ∧ a = p) → ∀ b ∈ ends Re.beginText a, (b.1 = 0 ∧ b = p) := by
      intro a ha b hb
      simp only [ends] at hb
      split at hb
      · simp only [List.mem_singleton] at hb
        subst hb
        exact ha
      · simp at hb
    have h0 : ∀ a ∈ ends Re.beginText p, (a.1 = 0 ∧ a = p) := by
      intro a ha
      simp only [ends] at ha
      split at ha
      · rename_i hp
        simp only [List.mem_singleton] at ha
        subst ha
        exact ⟨hp, rfl⟩
      · simp at ha
    have := closure_invariant (ends Re.beginText) (fun a => a.1 = 0 ∧ a = p) hstep
      (p.2.length + 1) (ends Re.beginText p) h0 q h
    exact ⟨by rw [← this.2]; exact this.1, this.2⟩
  · rintro ⟨hp, rfl⟩
    apply subset_closure
    simp [ends, hp]

/-- A run of `n` digits: the positions that `\d{n}` reaches are those `n`
digits further on. -/
theorem mem_iterate_digit (n : Nat) :
    ∀ (ps : List Pos) (q : Pos), q ∈ iterate (ends Re.digitClass) n ps ↔
      ∃ p ∈ ps, ∃ ds : List Char, ds.length = n ∧ (∀ c ∈ ds, isDigit c = true) ∧
        p.2 = ds ++ q.2 ∧ q.1 = p.1 + n := by
  induction n with
  | zero =>
    intro ps q
    simp only [iterate]
    constructor
    · intro h
      exact ⟨q, h, [], rfl, by simp, by simp, by simp⟩
    · rintro ⟨p, hp, ds, hlen, -, h2, h1⟩
      have hds : ds = [] := List.length_eq_zero.mp hlen
      subst hds
      have : q = p := Prod.ext (by simpa using h1) (by simpa using h2.symm)
      exact this ▸ hp
  | succ n ih =>
    intro ps q
    simp only [iterate]
    rw [ih]
    constructor
    · rintro ⟨m, hm, ds, hlen, hdig, h2, h1⟩
      rcases List.mem_flatMap.mp hm with ⟨p, hp, hpm⟩
      simp only [ends] at hpm
      split at hpm
      · simp at hpm
      · rename_i x xs hx
        split at hpm
        · rename_i hxd
          simp only [List.mem_singleton] at hpm
          subst hpm
          refine ⟨p, hp, x :: ds, by simp [hlen], ?_, ?_, ?_⟩
          · intro c hc
            rcases List.mem_cons.mp hc with rfl | hc
            · exact hxd
            · exact hdig c hc
          · simp only at h2
            rw [hx, h2]
            rfl
          · simp only at h1
            omega
        · simp at hpm
    · rintro ⟨p, hp, ds, hlen, hdig, h2, h1⟩
      cases ds with
      | nil => simp at hlen
      | cons x xs =>
        refine ⟨(p.1 + 1, xs ++ q.2), ?_, xs, by simpa using hlen, ?_, rfl, ?_⟩
        · apply List.mem_flatMap.mpr
          refine ⟨p, hp, ?_⟩
          simp only [ends]
          rw [h2]
          simp [hdig x (by simp)]
        · intro c hc
          exact hdig c (by simp [hc])
        · simp only
          omega

theorem mem_ends_concat (a b : Re) (p q : Pos) :
    q ∈ ends (Re.concat a b) p ↔ ∃ m, m ∈ ends a p ∧ q ∈ ends b m := by
  show q ∈ (ends a p).flatMap (ends b) ↔ _
  exact List.mem_flatMap

theorem mem_ends_repeat_digit (n : Nat) (p q : Pos) :
    q ∈ ends (Re.repeatN n Re.digitClass) p ↔
      ∃ ds : List Char, ds.length = n ∧ (∀ c ∈ ds, isDigit c = true) ∧
        p.2 = ds ++ q.2 ∧ q.1 = p.1 + n := by
  show q ∈ iterate (ends Re.digitClass) n [p] ↔ _
  rw [mem_iterate_digit]
  simp

theorem mem_ends_endText (p q : Pos) : q ∈ ends Re.endText p ↔ p.2 = [] ∧ q = p := by
  show q ∈ (if p.2.isEmpty then [p] else []) ↔ _
  split
  · rename_i h
    simp [List.isEmpty_iff.mp h]
  · rename_i h
    have : p.2 ≠ [] := fun e => h (by simp [e])
    simp [this]

theorem mem_ends_literal (ch : Char) (p q : Pos) :
    q ∈ ends (Re.literal ch) p ↔ p.2 = ch :: q.2 ∧ q.1 = p.1 + 1 := by
  show q ∈ (match p.2 with
    | [] => []
    | x :: xs => if x = ch then [(p.1 + 1, xs)] else []) ↔ _
  split
  · rename_i h
    simp [h]
  · rename_i x xs h
    rw [h]
    split
    · rename_i hx
      subst hx
      simp only [List.mem_singleton, List.cons.injEq, true_and]
      constructor
      · rintro rfl
        exact ⟨rfl, rfl⟩
      · rintro ⟨h2, h1⟩
        exact Prod.ext h1 h2.symm
    · rename_i hx
      simp only [List.not_mem_nil, List.cons.injEq, false_iff, not_and]
      intro hxc
      exact absurd hxc.1 hx

theorem mem_ends_beginText (p q : Pos) : q ∈ ends Re.beginText p ↔ p.1 = 0 ∧ q = p := by
  show q ∈ (if p.1 = 0 then [p] else []) ↔ _
  split
  · rename_i h
    simp [h]
  · rename_i h
    simp [h]

theorem mem_ends_phoneRe (p q : Pos) :
    q ∈ ends phoneRe p ↔
      p.1 = 0 ∧ p.2.length = 13 ∧ (∀ c ∈ p.2, isDigit c = true) ∧ q = (13, []) := by
  simp only [phoneRe, mem_ends_concat, mem_ends_repeat_digit, mem_ends_endText,
    mem_ends_plus_beginText]
  constructor
  · rintro ⟨c, ⟨b, ⟨a, ⟨hp0, rfl⟩, ds2, hl2, hd2, e2, n2⟩, ds11, hl11, hd11, e11, n11⟩, hc, rfl⟩
    rw [hc, List.append_nil] at e11
    refine ⟨hp0, ?_, ?_, ?_⟩
    · rw [e2, e11]; simp [hl2, hl11]
    · intro ch hch
      rw [e2, e11] at hch
      rcases List.mem_append.mp hch with h | h
      · exact hd2 ch h
      · exact hd11 ch h
    · exact Prod.ext (by simp only; omega) hc
  · rintro ⟨hp0, hlen, hdig, rfl⟩
    refine ⟨(13, []), ⟨(2, p.2.drop 2), ⟨p, ⟨hp0, rfl⟩, p.2.take 2, ?_, ?_, ?_, ?_⟩,
      p.2.drop 2, ?_, ?_, ?_, ?_⟩, rfl, rfl⟩
    · simp [hlen]
    · intro c hc; exact hdig c (List.mem_of_mem_take hc)
    · simp
    · simp [hp0]
    · simp [hlen]
    · intro c hc; exact hdig c (List.mem_of_mem_drop hc)
    · simp
    · simp

/-- What the pattern with the `+` escaped accepts from the beginning of a
text: a `+` and thirteen ASCII digits. -/
theorem mem_ends_escapedPhoneRe (p q : Pos) :
    q ∈ ends escapedPhoneRe p ↔
      p.1 = 0 ∧ (∃ ds : List Char, p.2 = '+' :: ds ∧ ds.length = 13 ∧
        ∀ c ∈ ds, isDigit c = true) ∧ q = (14, []) := by
  simp only [escapedPhoneRe, mem_ends_concat, mem_ends_repeat_digit, mem_ends_endText,
    mem_ends_beginText, mem_ends_literal]
  constructor
  · rintro ⟨c, ⟨b, ⟨a, ⟨m, ⟨hp0, rfl⟩, em, nm⟩, ds2, hl2, hd2, e2, n2⟩, ds11, hl11, hd11, e11, n11⟩,
      hc, rfl⟩
    rw [hc, List.append_nil] at e11
    refine ⟨hp0, ⟨ds2 ++ ds11, ?_, ?_, ?_⟩, ?_⟩
    · rw [em, e2, e11]
    · simp [hl2, hl11]
    · intro ch hch
      rcases List.mem_append.mp hch with h | h
      · exact hd2 ch h
      · exact hd11 ch h
    · exact Prod.ext (by simp only; omega) hc
  · rintro ⟨hp0, ⟨ds, hds, hlen, hdig⟩, rfl⟩
    refine ⟨(14, []), ⟨(3, ds.drop 2), ⟨(1, ds), ⟨p, ⟨hp0, rfl⟩, hds, ?_⟩, ds.take 2, ?_, ?_, ?_, ?_⟩,
      ds.drop 2, ?_, ?_, ?_, ?_⟩, rfl, rfl⟩
    · simp [hp0]
    · simp [hlen]
    · intro c hc; exact hdig c (List.mem_of_mem_take hc)
    · simp
    · simp
    · simp [hlen]
    · intro c hc; exact hdig c (List.mem_of_mem_drop hc)
    · simp
    · simp

theorem starts_lower (l : List Char) :
    ∀ (i : Nat) (p : Pos), p ∈ starts i l → i ≤ p.1 ∧ (p.1 = i → p = (i, l)) := by
  induction l with
  | nil =>
    intro i p hp
    simp only [starts, List.mem_singleton] at hp
    subst hp
    exact ⟨Nat.le_refl _, fun _ => rfl⟩
  | cons c t ih =>
    intro i p hp
    simp only [starts, List.mem_cons] at hp
    rcases hp with rfl | hp
    · exact ⟨Nat.le_refl _, fun _ => rfl⟩
    · have := (ih (i + 1) p hp).1
      exact ⟨by omega, fun h => by omega⟩

theorem self_mem_starts (l : List Char) (i : Nat) : (i, l) ∈ starts i l := by
  cases l <;> simp [starts]

/-- What the pattern of the source accepts: the texts of exactly thirteen
ASCII digits, with nothing before or after them. -/
theorem MatchString_phoneRe (s : String) :
    MatchString phoneRe s = true ↔
      s.toList.length = 13 ∧ ∀ c ∈ s.toList, isDigit c = true := by
  simp only [MatchString, List.any_eq_true, Bool.not_eq_true', List.isEmpty_eq_false_iff_exists_mem,
    mem_ends_phoneRe]
  constructor
  · rintro ⟨p, hp, q, hp0, hlen, hdig, -⟩
    have := (starts_lower s.toList 0 p hp).2 hp0
    subst this
    exact ⟨hlen, hdig⟩
  · rintro ⟨hlen, hdig⟩
    exact ⟨(0, s.toList), self_mem_starts _ _, (13, []), rfl, hlen, hdig, rfl⟩

/-- What the pattern with the `+` escaped accepts: the texts made of a `+`
and exactly thirteen ASCII digits. -/
theorem MatchString_escapedPhoneRe (s : String) :
    MatchString escapedPhoneRe s = true ↔
      ∃ ds : List Char, s.toList = '+' :: ds ∧ ds.length = 13 ∧ ∀ c ∈ ds, isDigit c = true := by
  simp only [MatchString, List.any_eq_true, Bool.not_eq_true', List.isEmpty_eq_false_iff_exists_mem,
    mem_ends_escapedPhoneRe]
  constructor
  · rintro ⟨p, hp, q, hp0, hds, -⟩
    have := (starts_lower s.toList 0 p hp).2 hp0
    subst this
    exact hds
  · intro hds
    exact ⟨(0, s.toList), self_mem_starts _ _, (14, []), rfl, hds, rfl⟩


end Regexp

/-! ## Facts about the validation library -/

theorem Errors.set_ne_nil (errs : Errors) (name : String) (err : ErrorObject) :
    errs.set name err ≠ [] := by
  simp [Errors.set]

theorem Errors.get_set_self (errs : Errors) (name : String) (err : ErrorObject) :
    (errs.set name err).get name = some err := by
  have hnone : (errs.filter (fun kv => kv.1 != name)).find? (fun kv => kv.1 == name) = none := by
    rw [List.find?_eq_none]
    intro kv hkv
    have := (List.mem_filter.mp hkv).2
    simpa using this
  simp [Errors.get, Errors.set, List.find?_append, hnone]

theorem Errors.get_set_ne (errs : Errors) (name other : String) (err : ErrorObject)
    (h : name ≠ other) : (errs.set name err).get other = errs.get other := by
  have hlast : ([(name, err)] : Errors).find? (fun kv => kv.1 == other) = none := by
    simp [h]
  have hfilter : (errs.filter (fun kv => kv.1 != name)).find? (fun kv => kv.1 == other)
      = errs.find? (fun kv => kv.1 == other) := by
    induction errs with
    | nil => rfl
    | cons kv rest ih =>
      by_cases hk : kv.1 = name
      · have hko : ¬ kv.1 = other := fun e => h (hk.symm.trans e)
        simp [List.filter_cons, hk, List.find?_cons, h, ih]
      · by_cases hko : kv.1 = other
        · have hon : ¬ other = name := fun e => h e.symm
          simp [List.filter_cons, List.find?_cons, hko, hon]
        · simp [List.filter_cons, hk, List.find?_cons, hko, ih]
  simp only [Errors.get, Errors.set, List.find?_append, hfilter, hlast, Option.or_none]

theorem collectErrors_ne_nil (fs : List FieldRules) :
    ∀ errs : Errors, errs ≠ [] → collectErrors fs errs ≠ [] := by
  induction fs with
  | nil => intro errs h; simpa [collectErrors] using h
  | cons fr rest ih =>
    intro errs h
    simp only [collectErrors]
    split
    · exact ih _ (Errors.set_ne_nil _ _ _)
    · exact ih _ h

theorem collectErrors_all_none (fs : List FieldRules)
    (h : ∀ fr ∈ fs, ValidateValue fr.value fr.rules = none) :
    ∀ errs : Errors, collectErrors fs errs = errs := by
  induction fs with
  | nil => intro errs; rfl
  | cons fr rest ih =>
    intro errs
    simp only [collectErrors, h fr (List.mem_cons_self _ _)]
    exact ih (fun g hg => h g (List.mem_cons_of_mem _ hg)) errs

theorem collectErrors_get_other (fs : List FieldRules) (name : String)
    (h : ∀ fr ∈ fs, fr.name ≠ name) :
    ∀ errs : Errors, (collectErrors fs errs).get name = errs.get name := by
  induction fs with
  | nil => intro errs; rfl
  | cons fr rest ih =>
    intro errs
    have hrest := ih (fun g hg => h g (List.mem_cons_of_mem _ hg))
    simp only [collectErrors]
    split
    · rw [hrest, Errors.get_set_ne _ _ _ _ (h fr (List.mem_cons_self _ _))]
    · exact hrest errs

theorem collectErrors_get (before after : List FieldRules) (fr : FieldRules) (err : ErrorObject)
    (hfr : ValidateValue fr.value fr.rules = some err)
    (hafter : ∀ g ∈ after, g.name ≠ fr.name) :
    ∀ errs : Errors,
      collectErrors (before ++ fr :: after) errs ≠ [] ∧
        (collectErrors (before ++ fr :: after) errs).get fr.name = some err := by
  induction before with
  | nil =>
    intro errs
    simp only [List.nil_append, collectErrors, hfr]
    exact ⟨collectErrors_ne_nil _ _ (Errors.set_ne_nil _ _ _),
      by rw [collectErrors_get_other after fr.name hafter, Errors.get_set_self]⟩
  | cons g rest ih =>
    intro errs
    simp only [List.cons_append, collectErrors]
    split
    · exact ih _
    · exact ih _

/-- The struct passes exactly when every field passes. -/
theorem ValidateStruct_eq_none_iff (fs : List FieldRules) :
    ValidateStruct fs = none ↔ ∀ fr ∈ fs, ValidateValue fr.value fr.rules = none := by
  constructor
  · intro h fr hfr
    cases hv : ValidateValue fr.value fr.rules with
    | none => rfl
    | some err =>
      obtain ⟨before, after, rfl⟩ := List.append_of_mem hfr
      exfalso
      have hne : collectErrors (before ++ fr :: after) [] ≠ [] := by
        clear h hfr
        induction before generalizing after with
        | nil =>
          simp only [List.nil_append, collectErrors, hv]
          exact collectErrors_ne_nil _ _ (Errors.set_ne_nil _ _ _)
        | cons g rest ih =>
          have key : ∀ errs : Errors, collectErrors (rest ++ fr :: after) errs ≠ [] := by
            intro errs
            by_cases he : errs = []
            · subst he; exact ih after
            · exact collectErrors_ne_nil _ _ he
          simp only [List.cons_append, collectErrors]
          split
          · exact key _
          · exact key _
      unfold ValidateStruct at h
      split at h
      · rename_i hempty
        exact hne (List.isEmpty_iff.mp hempty)
      · cases h
  · intro h
    unfold ValidateStruct
    rw [collectErrors_all_none fs h]
    rfl

/-- A field that fails makes the struct fail, and its error is stored under
its name when no later field has the same name. -/
theorem ValidateStruct_fail (before after : List FieldRules) (fr : FieldRules)
    (err : ErrorObject) (hfr : ValidateValue fr.value fr.rules = some err)
    (hafter : ∀ g ∈ after, g.name ≠ fr.name) :
    ∃ errs : Errors, ValidateStruct (before ++ fr :: after) = some errs ∧
      errs.get fr.name = some err := by
  obtain ⟨hne, hget⟩ := collectErrors_get before after fr err hfr hafter []
  refine ⟨collectErrors (before ++ fr :: after) [], ?_, hget⟩
  unfold ValidateStruct
  split
  · rename_i hempty
    exact absurd (List.isEmpty_iff.mp hempty) hne
  · rfl

theorem MustCompile_customerPhonePattern :
    MustCompile customerPhonePattern = some Regexp.phoneRe := by
  decide

theorem MustCompile_specPhonePattern :
    MustCompile specPhonePattern = some Regexp.escapedPhoneRe := by
  decide

/-- The call of `Validate` returns: the pattern compiles. -/
theorem Validate_eq (lib : Lib) (m : CreateTrackingRequest) :
    m.Validate lib = Run.returned (ValidateStruct (m.fieldRules lib Regexp.phoneRe)) := by
  simp only [CreateTrackingRequest.Validate, MustCompile_customerPhonePattern]

theorem ValidateStruct_fail_of_mem (fs : List FieldRules) (fr : FieldRules) (err : ErrorObject)
    (hmem : fr ∈ fs) (hnames : (fs.map FieldRules.name).Nodup)
    (hfr : ValidateValue fr.value fr.rules = some err) :
    ∃ errs : Errors, errs ≠ [] ∧ ValidateStruct fs = some errs ∧ errs.get fr.name = some err := by
  obtain ⟨before, after, rfl⟩ := List.append_of_mem hmem
  have hafter : ∀ g ∈ after, g.name ≠ fr.name := by
    intro g hg hname
    rw [List.map_append, List.map_cons] at hnames
    have h2 := (List.nodup_cons.mp (List.nodup_append.mp hnames).2.1).1
    exact h2 (hname ▸ List.mem_map_of_mem FieldRules.name hg)
  obtain ⟨errs, hv, hget⟩ := ValidateStruct_fail before after fr err hfr hafter
  refine ⟨errs, ?_, hv, hget⟩
  rintro rfl
  simp [Errors.get] at hget

theorem fieldRules_names (lib : Lib) (re : Regexp.Re) (m : CreateTrackingRequest) :
    ((m.fieldRules lib re).map FieldRules.name).Nodup := by
  simp [CreateTrackingRequest.fieldRules, Field]

theorem required_fails (message : String) :
    ValidateValue "" [(Required.Error message).Validate]
      = some ⟨"validation_required", message⟩ := by
  simp [ValidateValue, RequiredRule.Validate, RequiredRule.Error, Required, ErrRequired,
    ErrorObject.SetMessage]

theorem required_passes (value message : String) (h : value ≠ "") :
    ValidateValue value [(Required.Error message).Validate] = none := by
  simp [ValidateValue, RequiredRule.Validate, h]

theorem when_empty_passes (rules : List Rule) :
    ValidateValue "" [When ("" != "") rules] = none := by
  simp [ValidateValue, When]

theorem email_rule (lib : Lib) (value message : String) (h : value ≠ "") :
    ValidateValue value [When (value != "") [((EmailFormat lib).Error message).Validate]]
      = if lib.isEmail value = true then none else some ⟨"validation_is_email", message⟩ := by
  by_cases he : lib.isEmail value = true <;>
    simp [ValidateValue, When, h, StringRule.Validate, StringRule.Error, EmailFormat, ErrEmail,
      ErrorObject.SetMessage, he]

theorem date_rule (lib : Lib) (layout value message : String) (h : value ≠ "") :
    ValidateValue value [When (value != "") [((Date layout).Error message).Validate lib]]
      = if lib.timeParse layout value = true then none
        else some ⟨"validation_date_invalid", message⟩ := by
  by_cases he : lib.timeParse layout value = true <;>
    simp [ValidateValue, When, h, DateRule.Validate, DateRule.Error, Date, ErrDateInvalid,
      ErrorObject.SetMessage, he]

theorem match_rule (re : Regexp.Re) (value message : String) (h : value ≠ "") :
    ValidateValue value [When (value != "") [((Match re).Error message).Validate]]
      = if Regexp.MatchString re value = true then none
        else some ⟨"validation_match_invalid", message⟩ := by
  by_cases he : Regexp.MatchString re value = true <;>
    simp [ValidateValue, When, h, MatchRule.Validate, MatchRule.Error, Match, ErrMatchInvalid,
      ErrorObject.SetMessage, he]

/-- With the required fields set and the other validated fields empty, what
`Validate` returns depends on the phone alone: nil exactly when the phone is
empty or is thirteen ASCII digits. -/
theorem Validate_phone_only (lib : Lib) (m : CreateTrackingRequest)
    (htn : m.TrackingNumber ≠ "") (hcc : m.CourierCode ≠ "") (hemail : m.CustomerEmail = "")
    (hsd : m.ShippingDate = "") (htsd : m.TrackingShippingDate = "") :
    m.Validate lib = Run.returned none ↔
      m.CustomerPhone = "" ∨
        (m.CustomerPhone.toList.length = 13 ∧
          ∀ c ∈ m.CustomerPhone.toList, Regexp.isDigit c = true) := by
  rw [Validate_eq]
  simp only [Run.returned.injEq, ValidateStruct_eq_none_iff, CreateTrackingRequest.fieldRules,
    Field, List.forall_mem_cons, List.not_mem_nil, false_implies, implies_true, and_true,
    hemail, hsd, htsd, when_empty_passes, required_passes _ _ htn, required_passes _ _ hcc,
    true_and]
  by_cases hp : m.CustomerPhone = ""
  · simp [hp, ValidateValue, When]
  · rw [match_rule _ _ _ hp]
    simp only [hp, false_or, ← Regexp.MatchString_phoneRe]
    split <;> simp_all

/-- A phone that begins with `+` never passes `Validate`: the first character
is not a digit. -/
theorem Validate_rejects_leading_plus (lib : Lib) (m : CreateTrackingRequest)
    (rest : List Char) (hphone : m.CustomerPhone.toList = '+' :: rest) :
    m.Validate lib ≠ Run.returned none := by
  rw [Validate_eq]
  intro h
  have hnone := (ValidateStruct_eq_none_iff _).mp (Run.returned.inj h)
    (Field "customer_phone" m.CustomerPhone
      [When (m.CustomerPhone != "")
        [((Match Regexp.phoneRe).Error "客户手机号码格式错误").Validate]])
    (by simp [CreateTrackingRequest.fieldRules])
  have hne : m.CustomerPhone ≠ "" := by
    intro e
    rw [e] at hphone
    cases hphone
  simp only [Field] at hnone
  rw [match_rule _ _ _ hne] at hnone
  split at hnone
  · rename_i hmatch
    have hdig := ((Regexp.MatchString_phoneRe _).mp hmatch).2 '+' (by rw [hphone]; simp)
    exact absurd hdig (by decide)
  · cases hnone

/-- No text is matched both by the pattern of the source and by the pattern
of the specification. -/
theorem phone_patterns_disjoint (s : String)
    (h : Regexp.MatchString Regexp.phoneRe s = true) :
    Regexp.MatchString Regexp.escapedPhoneRe s = false := by
  cases hspec : Regexp.MatchString Regexp.escapedPhoneRe s with
  | false => rfl
  | true =>
    exfalso
    obtain ⟨ds, hds, -, -⟩ := (Regexp.MatchString_escapedPhoneRe s).mp hspec
    have hdig := ((Regexp.MatchString_phoneRe s).mp h).2 '+' (by rw [hds]; simp)
    exact absurd hdig (by decide)

/-! ## The claims -/

/-- C1: when the tracking number or the courier code of a request is empty,
`Validate` returns a non-nil error, and `Create` returns that error with the
zero `CreateResult` and hands no request to the HTTP executor. -/
theorem Create_rejects_missing_required {N : Type} (s : Service N) (req : CreateTrackingRequest)
    (h : req.TrackingNumber = "" ∨ req.CourierCode = "") :
    ∃ errs : Errors, errs ≠ [] ∧ req.Validate s.lib = Run.returned (some errs) ∧
      s.Create req = Run.returned ⟨CreateResult.zero, some (Error.validation errs), []⟩ := by
  have hfail : ∃ errs : Errors, errs ≠ [] ∧
      ValidateStruct (req.fieldRules s.lib Regexp.phoneRe) = some errs := by
    rcases h with h | h
    · obtain ⟨errs, hne, hv, -⟩ := ValidateStruct_fail_of_mem (req.fieldRules s.lib Regexp.phoneRe)
        (Field "tracking_number" req.TrackingNumber
          [(Required.Error "包裹物流单号不能为空").Validate]) _
        (by simp [CreateTrackingRequest.fieldRules]) (fieldRules_names _ _ _)
        (by simp only [Field, h]; exact required_fails _)
      exact ⟨errs, hne, hv⟩
    · obtain ⟨errs, hne, hv, -⟩ := ValidateStruct_fail_of_mem (req.fieldRules s.lib Regexp.phoneRe)
        (Field "courier_code" req.CourierCode
          [(Required.Error "物流商简码不能为空").Validate]) _
        (by simp [CreateTrackingRequest.fieldRules]) (fieldRules_names _ _ _)
        (by simp only [Field, h]; exact required_fails _)
      exact ⟨errs, hne, hv⟩
  obtain ⟨errs, hne, hv⟩ := hfail
  refine ⟨errs, hne, ?_, ?_⟩
  · rw [Validate_eq, hv]
  · simp only [Service.Create, Validate_eq, hv]

theorem Create_rejects_missing_required_witness :
    ((minimalRequest "" "ups").TrackingNumber = "" ∨ (minimalRequest "" "ups").CourierCode = "") ∧
    ∃ errs : Errors, errs ≠ [] ∧
      (minimalRequest "" "ups").Validate (exampleService "" default []).lib
        = Run.returned (some errs) ∧
      (exampleService "" default []).Create (minimalRequest "" "ups")
        = Run.returned ⟨CreateResult.zero, some (Error.validation errs), []⟩ :=
  ⟨Or.inl rfl, Create_rejects_missing_required (exampleService "" default [])
    (minimalRequest "" "ups") (Or.inl rfl)⟩

/-- C2 (the code departs from it): a phone of thirteen digits without the
leading `+` is not of the form `+`, two digits, eleven digits, and yet
`Validate` returns nil for it, whatever the library functions do. -/
theorem Validate_accepts_phone_without_plus :
    ∀ lib : Lib,
      ({ minimalRequest "1Z999" "ups" with CustomerPhone := "1234567890123" } :
        CreateTrackingRequest).Validate lib = Run.returned none := by
  intro lib
  refine (Validate_phone_only lib _ (by decide) (by decide) rfl rfl rfl).mpr (Or.inr ?_)
  decide

/-- C3 (the code departs from it): for the documented example of a phone,
`+8612345678910`, in a request that is valid otherwise, `Validate` returns the
phone-format error. -/
theorem Validate_rejects_documented_phone :
    ∀ lib : Lib,
      ({ minimalRequest "1Z999" "ups" with CustomerPhone := "+8612345678910" } :
        CreateTrackingRequest).Validate lib
        = Run.returned (some [("customer_phone",
            ⟨"validation_match_invalid", "客户手机号码格式错误"⟩)]) := by
  intro lib
  rfl

/-- C4: when the executor answers and the body decodes into an envelope, `All`
returns the items of the envelope with a nil error, and `isLastPage` tells
whether there are fewer items than `ItemsAmount`: false for a page of exactly
`ItemsAmount` items, true for a shorter page. -/
theorem All_isLastPage {N : Type} (s : Service N) (params : TracksQueryParams)
    (resp : Response) (env : Envelope N (List Track))
    (hcall : s.httpClient (allCall s params) = Except.ok resp)
    (hdecode : s.unmarshalTracks resp.body = Except.ok env) :
    (s.All params).items = env.Data ∧ (s.All params).err = none ∧
      (s.All params).isLastPage = decide ((env.Data.length : Int) < params.ItemsAmount) ∧
      ((env.Data.length : Int) = params.ItemsAmount → (s.All params).isLastPage = false) ∧
      ((env.Data.length : Int) < params.ItemsAmount → (s.All params).isLastPage = true) := by
  have hall : s.All params
      = ⟨env.Data, decide ((env.Data.length : Int) < params.ItemsAmount), none,
          [allCall s params]⟩ := by
    simp only [Service.All, TracksQueryParams.Validate, hcall, hdecode]
  rw [hall]
  refine ⟨rfl, rfl, rfl, ?_, ?_⟩
  · intro h
    simp only [decide_eq_false_iff_not]
    omega
  · intro h
    simpa using h

theorem All_isLastPage_witness :
    (exampleService "" default (List.replicate 20 default)).httpClient
        (allCall (exampleService "" default (List.replicate 20 default))
          { (default : TracksQueryParams) with ItemsAmount := 20 }) = Except.ok ⟨""⟩ ∧
    (exampleService "" default (List.replicate 20 default)).unmarshalTracks
        (Response.mk "").body = Except.ok ⟨(), List.replicate 20 default⟩ ∧
    ((exampleService "" default (List.replicate 20 default)).All
        { (default : TracksQueryParams) with ItemsAmount := 20 }).isLastPage = false :=
  ⟨rfl, rfl,
    (All_isLastPage (exampleService "" default (List.replicate 20 default))
      { (default : TracksQueryParams) with ItemsAmount := 20 } ⟨""⟩
      ⟨(), List.replicate 20 default⟩ rfl rfl).2.2.2.1 (by simp)⟩

/-- C5: a shipping date that is not empty and does not parse under the layout
`2006-01-02 15:04`, or a tracking shipping date that is not empty and does
not parse under the layout `20060102`, makes `Validate` return a non-nil
error, which holds the date-format error under the name of that field. -/
theorem Validate_rejects_bad_date (lib : Lib) (m : CreateTrackingRequest)
    (h : (m.ShippingDate ≠ "" ∧ lib.timeParse "2006-01-02 15:04" m.ShippingDate = false) ∨
      (m.TrackingShippingDate ≠ "" ∧ lib.timeParse "20060102" m.TrackingShippingDate = false)) :
    ∃ errs : Errors, errs ≠ [] ∧ m.Validate lib = Run.returned (some errs) ∧
      (errs.get "shipping_date"
          = some ⟨"validation_date_invalid", "包裹发货时间格式错误"⟩ ∨
        errs.get "tracking_shipping_date"
          = some ⟨"validation_date_invalid", "包裹发货时间格式错误"⟩) := by
  rw [Validate_eq]
  rcases h with ⟨hne, hparse⟩ | ⟨hne, hparse⟩
  · obtain ⟨errs, hnil, hv, hget⟩ := ValidateStruct_fail_of_mem (m.fieldRules lib Regexp.phoneRe)
      (Field "shipping_date" m.ShippingDate
        [When (m.ShippingDate != "")
          [((Date "2006-01-02 15:04").Error "包裹发货时间格式错误").Validate lib]]) _
      (by simp [CreateTrackingRequest.fieldRules]) (fieldRules_names _ _ _)
      (by simp only [Field]; rw [date_rule _ _ _ _ hne, hparse]; rfl)
    exact ⟨errs, hnil, by rw [hv], Or.inl hget⟩
  · obtain ⟨errs, hnil, hv, hget⟩ := ValidateStruct_fail_of_mem (m.fieldRules lib Regexp.phoneRe)
      (Field "tracking_shipping_date" m.TrackingShippingDate
        [When (m.TrackingShippingDate != "")
          [((Date "20060102").Error "包裹发货时间格式错误").Validate lib]]) _
      (by simp [CreateTrackingRequest.fieldRules]) (fieldRules_names _ _ _)
      (by simp only [Field]; rw [date_rule _ _ _ _ hne, hparse]; rfl)
    exact ⟨errs, hnil, by rw [hv], Or.inr hget⟩

theorem Validate_rejects_bad_date_witness :
    ((({ minimalRequest "1Z999" "ups" with ShippingDate := "2020/09/17" } :
          CreateTrackingRequest).ShippingDate ≠ "" ∧
        exampleLib.timeParse "2006-01-02 15:04"
          ({ minimalRequest "1Z999" "ups" with ShippingDate := "2020/09/17" } :
            CreateTrackingRequest).ShippingDate = false) ∨
      (({ minimalRequest "1Z999" "ups" with ShippingDate := "2020/09/17" } :
          CreateTrackingRequest).TrackingShippingDate ≠ "" ∧
        exampleLib.timeParse "20060102"
          ({ minimalRequest "1Z999" "ups" with ShippingDate := "2020/09/17" } :
            CreateTrackingRequest).TrackingShippingDate = false)) ∧
    ∃ errs : Errors, errs ≠ [] ∧
      ({ minimalRequest "1Z999" "ups" with ShippingDate := "2020/09/17" } :
        CreateTrackingRequest).Validate exampleLib = Run.returned (some errs) ∧
      (errs.get "shipping_date"
          = some ⟨"validation_date_invalid", "包裹发货时间格式错误"⟩ ∨
        errs.get "tracking_shipping_date"
          = some ⟨"validation_date_invalid", "包裹发货时间格式错误"⟩) :=
  ⟨Or.inl ⟨by decide, by decide⟩,
    Validate_rejects_bad_date exampleLib _ (Or.inl ⟨by decide, by decide⟩)⟩

/-- C6: a customer email that is not empty and that the email check refuses
makes `Validate` return a non-nil error, which holds the email-format message
under the name `customer_email`. -/
theorem Validate_rejects_bad_email (lib : Lib) (m : CreateTrackingRequest)
    (hne : m.CustomerEmail ≠ "") (hbad : lib.isEmail m.CustomerEmail = false) :
    ∃ errs : Errors, errs ≠ [] ∧ m.Validate lib = Run.returned (some errs) ∧
      errs.get "customer_email" = some ⟨"validation_is_email", "客户邮箱地址格式错误"⟩ := by
  rw [Validate_eq]
  obtain ⟨errs, hnil, hv, hget⟩ := ValidateStruct_fail_of_mem (m.fieldRules lib Regexp.phoneRe)
    (Field "customer_email" m.CustomerEmail
      [When (m.CustomerEmail != "") [((EmailFormat lib).Error "客户邮箱地址格式错误").Validate]]) _
    (by simp [CreateTrackingRequest.fieldRules]) (fieldRules_names _ _ _)
    (by simp only [Field]; rw [email_rule _ _ _ hne, hbad]; rfl)
  exact ⟨errs, hnil, by rw [hv], hget⟩

theorem Validate_rejects_bad_email_witness :
    ({ minimalRequest "1Z999" "ups" with CustomerEmail := "buyer.example.com" } :
        CreateTrackingRequest).CustomerEmail ≠ "" ∧
    exampleLib.isEmail ({ minimalRequest "1Z999" "ups" with CustomerEmail := "buyer.example.com" } :
        CreateTrackingRequest).CustomerEmail = false ∧
    ∃ errs : Errors, errs ≠ [] ∧
      ({ minimalRequest "1Z999" "ups" with CustomerEmail := "buyer.example.com" } :
        CreateTrackingRequest).Validate exampleLib = Run.returned (some errs) ∧
      errs.get "customer_email" = some ⟨"validation_is_email", "客户邮箱地址格式错误"⟩ :=
  ⟨by decide, by decide, Validate_rejects_bad_email exampleLib _ (by decide) (by decide)⟩

/-- C7: for a request in which only the tracking number and the courier code
are set, the JSON object that `Create` sends as the body of its one request
has exactly the two members `tracking_number` and `courier_code`, with those
values, and none of the optional keys. -/
theorem Create_body_required_only {N : Type} (s : Service N) (trackingNumber courierCode : String)
    (htn : trackingNumber ≠ "") (hcc : courierCode ≠ "") :
    Marshal (minimalRequest trackingNumber courierCode).jsonFields
        = [("tracking_number", trackingNumber), ("courier_code", courierCode)] ∧
      ∃ r : CreateReturn, s.Create (minimalRequest trackingNumber courierCode) = Run.returned r ∧
        r.calls = [⟨"PUT", "/create",
          some [("tracking_number", trackingNumber), ("courier_code", courierCode)], []⟩] := by
  have hbody : Marshal (minimalRequest trackingNumber courierCode).jsonFields
      = [("tracking_number", trackingNumber), ("courier_code", courierCode)] := by
    simp [Marshal, CreateTrackingRequest.jsonFields, minimalRequest]
  have hvalid : (minimalRequest trackingNumber courierCode).Validate s.lib = Run.returned none :=
    (Validate_phone_only s.lib _ htn hcc rfl rfl rfl).mpr (Or.inl rfl)
  refine ⟨hbody, ?_⟩
  simp only [Service.Create, hvalid, createCall, hbody]
  split
  · exact ⟨_, rfl, rfl⟩
  · split
    · exact ⟨_, rfl, rfl⟩
    · exact ⟨_, rfl, rfl⟩

theorem Create_body_required_only_witness :
    "1Z999" ≠ "" ∧ "ups" ≠ "" ∧
    (Marshal (minimalRequest "1Z999" "ups").jsonFields
        = [("tracking_number", "1Z999"), ("courier_code", "ups")] ∧
      ∃ r : CreateReturn,
        (exampleService "" default []).Create (minimalRequest "1Z999" "ups") = Run.returned r ∧
        r.calls = [⟨"PUT", "/create",
          some [("tracking_number", "1Z999"), ("courier_code", "ups")], []⟩]) :=
  ⟨by decide, by decide,
    Create_body_required_only (exampleService "" default []) "1Z999" "ups" (by decide) (by decide)⟩

/-- C8: for a request that passes `Validate`, when the executor answers and the
body decodes into an envelope, `Create` returns a nil error and the data of
the envelope: the same `Success` list and the same `Error` list, in the same
order, also when the `Error` list is not empty. -/
theorem Create_returns_envelope_data {N : Type} (s : Service N) (req : CreateTrackingRequest)
    (resp : Response) (env : Envelope N CreateResult)
    (hvalid : req.Validate s.lib = Run.returned none)
    (hcall : s.httpClient (createCall req) = Except.ok resp)
    (hdecode : s.unmarshalCreate resp.body = Except.ok env) :
    s.Create req
      = Run.returned ⟨⟨env.Data.Success, env.Data.Error⟩, none, [createCall req]⟩ := by
  simp only [Service.Create, hvalid, hcall, hdecode]

theorem Create_returns_envelope_data_witness :
    (minimalRequest "1Z999" "ups").Validate
        (exampleService "" ⟨[⟨"1Z999", "ups", ""⟩], [⟨"1Z998", "ups", "A-7"⟩]⟩ []).lib
      = Run.returned none ∧
    (exampleService "" ⟨[⟨"1Z999", "ups", ""⟩], [⟨"1Z998", "ups", "A-7"⟩]⟩ []).httpClient
        (createCall (minimalRequest "1Z999" "ups")) = Except.ok ⟨""⟩ ∧
    (exampleService "" ⟨[⟨"1Z999", "ups", ""⟩], [⟨"1Z998", "ups", "A-7"⟩]⟩ []).unmarshalCreate
        (Response.mk "").body
      = Except.ok ⟨(), ⟨[⟨"1Z999", "ups", ""⟩], [⟨"1Z998", "ups", "A-7"⟩]⟩⟩ ∧
    (exampleService "" ⟨[⟨"1Z999", "ups", ""⟩], [⟨"1Z998", "ups", "A-7"⟩]⟩ []).Create
        (minimalRequest "1Z999" "ups")
      = Run.returned ⟨⟨[⟨"1Z999", "ups", ""⟩], [⟨"1Z998", "ups", "A-7"⟩]⟩, none,
          [createCall (minimalRequest "1Z999" "ups")]⟩ :=
  ⟨rfl, rfl, rfl,
    Create_returns_envelope_data
      (exampleService "" ⟨[⟨"1Z999", "ups", ""⟩], [⟨"1Z998", "ups", "A-7"⟩]⟩ [])
      (minimalRequest "1Z999" "ups") ⟨""⟩
      ⟨(), ⟨[⟨"1Z999", "ups", ""⟩], [⟨"1Z998", "ups", "A-7"⟩]⟩⟩ rfl rfl rfl⟩

/-- C9: with the tracking number and the courier code set and the email, the
phone and the two shipping dates empty, `Validate` returns nil, whatever the
other fields hold. -/
theorem Validate_optional_absent (lib : Lib) (m : CreateTrackingRequest)
    (htn : m.TrackingNumber ≠ "") (hcc : m.CourierCode ≠ "")
    (hemail : m.CustomerEmail = "") (hphone : m.CustomerPhone = "")
    (hsd : m.ShippingDate = "") (htsd : m.TrackingShippingDate = "") :
    m.Validate lib = Run.returned none :=
  (Validate_phone_only lib m htn hcc hemail hsd htsd).mpr (Or.inl hphone)

theorem Validate_optional_absent_witness :
    ({ minimalRequest "1Z999" "ups" with
        OrderNumber := "A-7", Title := "书", DestinationCode := "??", LogisticsChannel := " ",
        Note := "+86", CustomerName := "@", TrackingPostalCode := "2020-13-45",
        TrackingDestinationCode := "xx", TrackingCourierAccount := "0" } :
      CreateTrackingRequest).Validate exampleLib = Run.returned none :=
  Validate_optional_absent exampleLib _ (by decide) (by decide) rfl rfl rfl rfl

/-- C10: with `ItemsAmount` zero or negative, `All` never reports the last
page, whatever the executor and the decoder return; a decoded page of no
items is returned with a nil error and `isLastPage` false. -/
theorem All_never_last_without_amount {N : Type} (s : Service N) (params : TracksQueryParams)
    (h : params.ItemsAmount ≤ 0) :
    (s.All params).isLastPage = false ∧
      ∀ (resp : Response) (env : Envelope N (List Track)),
        s.httpClient (allCall s params) = Except.ok resp →
        s.unmarshalTracks resp.body = Except.ok env → env.Data = [] →
        s.All params = ⟨[], false, none, [allCall s params]⟩ := by
  constructor
  · simp only [Service.All, TracksQueryParams.Validate]
    split
    · rfl
    · split
      · simp only [decide_eq_false_iff_not]
        omega
      · rfl
  · intro resp env hcall hdecode hdata
    simp only [Service.All, TracksQueryParams.Validate, hcall, hdecode, hdata, List.length_nil,
      AllReturn.mk.injEq, decide_eq_false_iff_not, true_and, and_true]
    omega

theorem All_never_last_without_amount_witness :
    ({ (default : TracksQueryParams) with TrackingNumbers := "1Z999" } :
        TracksQueryParams).ItemsAmount ≤ 0 ∧
    ((exampleService "" default []).All
        { (default : TracksQueryParams) with TrackingNumbers := "1Z999" }).isLastPage = false :=
  ⟨by decide,
    (All_never_last_without_amount (exampleService "" default [])
      { (default : TracksQueryParams) with TrackingNumbers := "1Z999" } (by decide)).1⟩

end Tracking51
